import Mathlib

/-!
Verification of `alb`, the album export from a photo library.

A shallow embedding of `main.go`: schema discovery (`findAlbumEntityValue`,
`findAssetIDsForAlbum`), album listing (`findAlbums`), and the copy/convert loop
(`syncAlbum`, `sync`).

Conventions of the embedding.

* A Go `string` is a Lean `String`; the library routines used by the program
  (`strings.HasPrefix`, `strings.HasSuffix`, `strings.ReplaceAll`, the two regular
  expressions, `strconv.Atoi`) are written out on the character list.
* A Go `int` is an `Int`; `strconv.Atoi` reports a range error outside the 64-bit range.
* A Go `(T, error)` result is an `Except Error T`, except for `findAlbumEntityValue`,
  whose `(-1, nil)` result needs the pair.
* The SQLite handle is a record of query results, one field per query text of the program,
  indexed by the values the program formats into the query.
* The file system is one map from paths to nodes; every `os`/`io` call made by the program
  is recorded in a log next to the lines the program prints. A call can also fail for
  reasons the map does not hold: these are given by the environment, per path.
-/

namespace Alb

/-! ## Errors -/

/-- Go `error` values. `notExist` is the class recognised by `os.IsNotExist`. -/
inductive Error where
  | notExist : String → Error
  | msg : String → Error
  deriving DecidableEq, Repr

deriving instance DecidableEq for Except

/-- The function `os.IsNotExist`. -/
def isNotExist : Error → Bool
  | .notExist _ => true
  | .msg _ => false

/-! ## Library routines on strings -/

/-- The function `strings.HasPrefix`. -/
def hasPrefix (s pre : String) : Bool := pre.data.isPrefixOf s.data

/-- The function `strings.HasSuffix`. -/
def hasSuffix (s suf : String) : Bool := suf.data.isSuffixOf s.data

/-- Left-to-right replacement of the non-overlapping occurrences of a non-empty `old`:
`skip` counts the characters of an occurrence that are still to be dropped. -/
def replaceAllAux (old new : List Char) : Nat → List Char → List Char
  | _, [] => []
  | skip + 1, _ :: cs => replaceAllAux old new skip cs
  | 0, c :: cs =>
    if old.isPrefixOf (c :: cs) then new ++ replaceAllAux old new (old.length - 1) cs
    else c :: replaceAllAux old new 0 cs

/-- The function `strings.ReplaceAll` for a non-empty `old`. -/
def replaceAll (s old new : String) : String :=
  ⟨replaceAllAux old.data new.data 0 s.data⟩

/-- The class `\d` of Go regular expressions: the ASCII digits. -/
def isDigit (c : Char) : Bool := decide ('0' ≤ c) && decide (c ≤ '9')

/-- The literal tail `ASSETS` of both patterns. -/
def assetsLit : List Char := ['A', 'S', 'S', 'E', 'T', 'S']

/-- Match of `Z_(\d+)ASSETS` anchored at the head of the input; the result is the text of
the capture group. The digit run is taken greedily; no digit can start `ASSETS`, so no
shorter run can match. -/
def matchHere : List Char → Option (List Char)
  | 'Z' :: '_' :: rest =>
    let ds := rest.takeWhile isDigit
    if !ds.isEmpty && assetsLit.isPrefixOf (rest.dropWhile isDigit) then some ds else none
  | _ => none

/-- Leftmost match of `Z_(\d+)ASSETS` anywhere in the input (the expression is not
anchored); the result is the text of the capture group. -/
def findMatch : List Char → Option (List Char)
  | [] => none
  | c :: cs =>
    match matchHere (c :: cs) with
    | some ds => some ds
    | none => findMatch cs

/-- The method `FindStringSubmatch` of the pattern `Z_(\d+)ASSETS`: the empty slice when
there is no match, else the whole match followed by the capture group. -/
def findStringSubmatch (s : String) : List String :=
  match findMatch s.data with
  | none => []
  | some ds => [⟨'Z' :: '_' :: ds ++ assetsLit⟩, ⟨ds⟩]

/-- The method `MatchString` of the pattern `Z_\d+ASSETS`. -/
def matchString (s : String) : Bool := (findMatch s.data).isSome

/-- The name holds an occurrence of `Z_`, a non-empty run of digits `ds`, `ASSETS`, after
the prefix `pre`: the declarative reading of the regular expression. -/
def OccursAt (s pre ds : List Char) : Prop :=
  ds ≠ [] ∧ (∀ c ∈ ds, isDigit c = true) ∧ ∃ post, s = pre ++ 'Z' :: '_' :: ds ++ assetsLit ++ post

/-- Value of a decimal digit. -/
def digitVal (c : Char) : Nat := c.toNat - '0'.toNat

/-- Value of a run of decimal digits, most significant first. -/
def decimalValue (ds : List Char) : Nat := ds.foldl (fun acc c => 10 * acc + digitVal c) 0

/-- Width of the Go `int` type on the platforms the program is built for. -/
def intSize : Nat := 64

/-- Error text of `strconv.ErrRange`. -/
def errRange : Error := .msg "value out of range"

/-- Error text of `strconv.ErrSyntax`. -/
def errSyntax : Error := .msg "invalid syntax"

/-- Unsigned part of `strconv.Atoi`. -/
def atoiDigits (neg : Bool) (ds : List Char) : Int × Option Error :=
  if ds.isEmpty || !ds.all isDigit then (0, some errSyntax)
  else
    let n := decimalValue ds
    if neg then
      if n ≤ 2 ^ (intSize - 1) then (-(n : Int), none) else (-(2 ^ (intSize - 1) : Int), some errRange)
    else
      if n < 2 ^ (intSize - 1) then ((n : Int), none) else ((2 ^ (intSize - 1) : Int) - 1, some errRange)

/-- The function `strconv.Atoi`: optional sign, decimal digits, range checked against the
width of `int`; on a range error the nearest representable value is returned with it. -/
def atoi (s : String) : Int × Option Error :=
  match s.data with
  | '-' :: ds => atoiDigits true ds
  | '+' :: ds => atoiDigits false ds
  | ds => atoiDigits false ds

/-! ## The store -/

/-- Result of `db.Query` followed by the `rows.Next`/`rows.Scan` loop: the query may fail,
and so may the scan of each row. -/
abbrev Rows (α : Type) := Except Error (List (Except Error α))

/-- The read-only SQLite handle, seen through the queries the program issues. -/
structure DB where
  /-- rows of `SELECT tbl_name FROM sqlite_master WHERE type = 'table'` -/
  tableNames : Rows String
  /-- rows of `SELECT Z_PK, ZTITLE FROM ZGENERICALBUM WHERE Z_ENT = %d` -/
  albumRows : Int → Rows (Int × Option String)
  /-- rows of `SELECT name FROM pragma_table_info('Z_%dASSETS')` -/
  columnNames : Int → Rows String
  /-- rows of `SELECT %s FROM Z_%dASSETS WHERE Z_%dALBUMS = %d` -/
  assetIDs : String → Int → Int → Rows Int
  /-- scan of `SELECT ZDIRECTORY, ZFILENAME FROM ZASSET WHERE Z_PK = %d` -/
  assetRow : Int → Except Error (String × String)

/-- Loop of `findAlbumEntityValue` over the scanned table names. -/
def findAlbumEntityValueLoop : List (Except Error String) → Int × Option Error
  | [] => (-1, none)
  | .error err :: _ => (-1, some err)
  | .ok tableName :: rest =>
    let matches_ := findStringSubmatch tableName
    if matches_.length < 2 then findAlbumEntityValueLoop rest
    else atoi (matches_.getD 1 "")

/-- The function `findAlbumEntityValue`. -/
def findAlbumEntityValue (db : DB) : Int × Option Error :=
  match db.tableNames with
  | .error err => (-1, some err)
  | .ok rows => findAlbumEntityValueLoop rows

/-- Error text of the failed column search in `findAssetIDsForAlbum`. -/
def errNoColumn : Error := .msg "could not find a column name containing the asset ID values"

/-- First loop of `findAssetIDsForAlbum`: the value of `columnName` when the loop is left. -/
def columnNameLoop : List (Except Error String) → Except Error String
  | [] => .ok ""
  | .error err :: _ => .error err
  | .ok name :: rest => if matchString name then .ok name else columnNameLoop rest

/-- First part of `findAssetIDsForAlbum`: the column query, its loop and the test
`columnName == ""`. -/
def resolveAssetColumn (db : DB) (entityID : Int) : Except Error String :=
  match db.columnNames entityID with
  | .error err => .error err
  | .ok rows =>
    match columnNameLoop rows with
    | .error err => .error err
    | .ok columnName => if columnName = "" then .error errNoColumn else .ok columnName

/-- Second loop of `findAssetIDsForAlbum`, appending each scanned id to `results`. -/
def scanIDs : List (Except Error Int) → List Int → Except Error (List Int)
  | [], results => .ok results
  | .error err :: _, _ => .error err
  | .ok id :: rest, results => scanIDs rest (results ++ [id])

/-- The function `findAssetIDsForAlbum`. -/
def findAssetIDsForAlbum (db : DB) (entityID pk : Int) : Except Error (List Int) :=
  match resolveAssetColumn db entityID with
  | .error err => .error err
  | .ok columnName =>
    match db.assetIDs columnName entityID pk with
    | .error err => .error err
    | .ok rows => scanIDs rows []

/-- The struct `AlbumMetadata`. -/
structure AlbumMetadata where
  PK : Int
  Name : String
  AssetIDs : List Int
  deriving DecidableEq, Repr

/-- The test `!name.Valid || name.String == "" || strings.HasPrefix(name.String, "progress-")`
on a scanned `sql.NullString`. -/
def skipTitle : Option String → Bool
  | none => true
  | some name => decide (name = "") || hasPrefix name "progress-"

/-- Loop of `findAlbums`, appending each retained row to `albums`. -/
def findAlbumsLoop (db : DB) (entityID : Int) :
    List (Except Error (Int × Option String)) → List AlbumMetadata → Except Error (List AlbumMetadata)
  | [], albums => .ok albums
  | .error err :: _, _ => .error err
  | .ok (pk, name) :: rest, albums =>
    if skipTitle name then findAlbumsLoop db entityID rest albums
    else
      match findAssetIDsForAlbum db entityID pk with
      | .error err => .error err
      | .ok assetIDs =>
        findAlbumsLoop db entityID rest (albums ++ [⟨pk, name.getD "", assetIDs⟩])

/-- The function `findAlbums`. -/
def findAlbums (db : DB) (entityID : Int) : Except Error (List AlbumMetadata) :=
  match db.albumRows entityID with
  | .error err => .error err
  | .ok rows => findAlbumsLoop db entityID rows []

/-- The function `findAssetLocation`: directory and file name of the asset row. -/
def findAssetLocation (db : DB) (id : Int) : Except Error (String × String) :=
  match db.assetRow id with
  | .error err => .error err
  | .ok (dir, filename) => .ok (dir, filename)

/-! ## The file system and the calls made on it -/

/-- What a path holds. -/
inductive Node where
  | file : List Nat → Node
  | dir : Node
  deriving DecidableEq, Repr

/-- The file system: what each path holds, if anything. -/
abbrev FS := String → Option Node

/-- The file system with path `p` holding `n`. -/
def FS.set (fs : FS) (p : String) (n : Node) : FS := fun q => if q = p then some n else fs q

/-- What the program prints, and the calls it makes outside itself. -/
inductive Event where
  /-- line `Found album entity value. [value:%d]` of `sync` -/
  | foundEntity : Int → Event
  /-- line `Syncing %s with %d assets` of `syncAlbum` -/
  | syncing : String → Nat → Event
  /-- line `Skipping file since it already exists. [filename:%s]` of `syncAlbum` -/
  | skipping : String → Event
  | stat : String → Event
  | mkdir : String → Event
  | locate : Int → Event
  | create : String → Event
  | open_ : String → Event
  | convert : String → Event
  | copy : String → Event
  | fsync : String → Event
  deriving DecidableEq, Repr

/-- The state threaded through a run. -/
structure St where
  fs : FS
  log : List Event

/-- Append an event to the log. -/
def St.emit (st : St) (e : Event) : St := { st with log := st.log ++ [e] }

/-- What a run is given from outside the program. -/
structure Env where
  db : DB
  /-- the function `path.Join` -/
  join : List String → String
  /-- the call `vips.NewImageFromReader` on the bytes read -/
  newImage : List Nat → Except Error (List Nat)
  /-- the method `ExportJpeg` on the decoded image -/
  exportJpeg : List Nat → Except Error (List Nat)
  /-- failure to reach a path at all (no search permission on a directory of the path, a
  name too long, a loop of links): every call that takes the path fails with it, whatever
  the path holds -/
  accessFault : String → Option Error
  /-- failure of `os.Mkdir` for reasons outside the map (permissions, missing parent) -/
  mkdirFault : String → Option Error
  /-- failure of `os.Create` for reasons outside the map -/
  createFault : String → Option Error
  /-- failure of `os.Open` for reasons outside the map -/
  openFault : String → Option Error
  /-- failure of the writes of `io.Copy`, after the given number of bytes -/
  copyFault : String → Option (Nat × Error)
  /-- failure of `outF.Sync` -/
  syncFault : String → Option Error

/-- The function `os.Stat`: the file info, or an error and no info. The error is the access
fault of the path when there is one, also when the path holds something, and a not-exist
error when the path holds nothing. -/
def osStat (env : Env) (fs : FS) (p : String) : Except Error Node :=
  match env.accessFault p with
  | some err => .error err
  | none =>
    match fs p with
    | some n => .ok n
    | none => .error (.notExist p)

/-- The function `os.Mkdir`. -/
def osMkdir (env : Env) (fs : FS) (p : String) : Except Error FS :=
  match env.accessFault p with
  | some err => .error err
  | none =>
    match env.mkdirFault p with
    | some err => .error err
    | none =>
      match fs p with
      | some _ => .error (.msg "file exists")
      | none => .ok (fs.set p .dir)

/-- The function `os.Create`: create or truncate. -/
def osCreate (env : Env) (fs : FS) (p : String) : Except Error FS :=
  match env.accessFault p with
  | some err => .error err
  | none =>
    match env.createFault p with
    | some err => .error err
    | none =>
      match fs p with
      | some .dir => .error (.msg "is a directory")
      | _ => .ok (fs.set p (.file []))

/-- The function `os.Open`. -/
def osOpen (env : Env) (fs : FS) (p : String) : Except Error Node :=
  match env.openFault p with
  | some err => .error err
  | none => osStat env fs p

/-- Reading an open handle to its end. -/
def readAll : Node → Except Error (List Nat)
  | .file data => .ok data
  | .dir => .error (.msg "is a directory")

/-- The function `convertHEIC` (its print of the detected type is left out). -/
def convertHEIC (env : Env) (input : Node) : Except Error (List Nat) :=
  match readAll input with
  | .error err => .error err
  | .ok data =>
    match env.newImage data with
    | .error err => .error err
    | .ok img => env.exportJpeg img

/-- The call `io.Copy(outF, src)` on the freshly created file at `dst`. -/
def ioCopy (env : Env) (fs : FS) (dst : String) (src : Except Error (List Nat)) : FS × Option Error :=
  match src with
  | .error err => (fs, some err)
  | .ok data =>
    match env.copyFault dst with
    | some (n, err) => (fs.set dst (.file (data.take n)), some err)
    | none => (fs.set dst (.file data), none)

/-! ## The copy/convert loop -/

/-- Lines 101-104 of `syncAlbum`: the destination file name. -/
def dstFilename (srcFilename : String) : String :=
  if hasSuffix srcFilename ".heic" then replaceAll srcFilename ".heic" ".jpeg" else srcFilename

/-- Line 126 of `syncAlbum`: whether the source is passed through `convertHEIC`. -/
def isConverted (srcFilename : String) : Bool := hasSuffix srcFilename "heic"

/-- Line 106 of `syncAlbum`: the destination path of a source file name. -/
def outputPathOf (env : Env) (album : AlbumMetadata) (outputBase srcFilename : String) : String :=
  env.join [outputBase, album.Name, dstFilename srcFilename]

/-- Line 119 of `syncAlbum`: the source path. -/
def inputPathOf (env : Env) (libraryBase srcDir srcFilename : String) : String :=
  env.join [libraryBase, "originals", srcDir, srcFilename]

/-- Lines 112-146 of `syncAlbum`: the work on an asset whose destination does not exist. -/
def writeAsset (env : Env) (libraryBase srcDir srcFilename outputPath : String) (st : St) :
    St × Option Error :=
  let st := st.emit (.create outputPath)
  match osCreate env st.fs outputPath with
  | .error err => (st, some err)
  | .ok fs1 =>
    let st := { st with fs := fs1 }
    let inputPath := inputPathOf env libraryBase srcDir srcFilename
    let st := st.emit (.open_ inputPath)
    match osOpen env st.fs inputPath with
    | .error err => (st, some err)
    | .ok inF =>
      if isConverted srcFilename then
        let st := st.emit (.convert inputPath)
        match convertHEIC env inF with
        | .error err => (st, some err)
        | .ok jpegData =>
          let st := st.emit (.copy outputPath)
          match ioCopy env st.fs outputPath (.ok jpegData) with
          | (fs2, some err) => ({ st with fs := fs2 }, some err)
          | (fs2, none) =>
            let st := { st with fs := fs2 }
            let st := st.emit (.fsync outputPath)
            (st, env.syncFault outputPath)
      else
        let st := st.emit (.copy outputPath)
        match ioCopy env st.fs outputPath (readAll inF) with
        | (fs2, some err) => ({ st with fs := fs2 }, some err)
        | (fs2, none) =>
          let st := { st with fs := fs2 }
          let st := st.emit (.fsync outputPath)
          (st, env.syncFault outputPath)

/-- Body of the loop of `syncAlbum` for one asset id: the state after it, and the error it
returns, `none` when the loop goes on to the next asset. -/
def syncAsset (env : Env) (album : AlbumMetadata) (libraryBase outputBase : String) (id : Int)
    (st : St) : St × Option Error :=
  let st := st.emit (.locate id)
  match findAssetLocation env.db id with
  | .error err => (st, some err)
  | .ok (srcDir, srcFilename) =>
    let outputPath := outputPathOf env album outputBase srcFilename
    let st := st.emit (.stat outputPath)
    match osStat env st.fs outputPath with
    | .ok _ => (st.emit (.skipping srcFilename), none)
    | .error _ => writeAsset env libraryBase srcDir srcFilename outputPath st

/-- File name of an asset in the store, empty when the asset is not found. -/
def srcFilenameOf (env : Env) (id : Int) : String :=
  match findAssetLocation env.db id with
  | .ok (_, srcFilename) => srcFilename
  | .error _ => ""

/-- What the log gains when an asset is located, its destination is found to exist, and
the asset is skipped: no call creates, opens, converts or writes anything. -/
def skipLog (env : Env) (album : AlbumMetadata) (outputBase : String) (id : Int) : List Event :=
  [.locate id, .stat (outputPathOf env album outputBase (srcFilenameOf env id)),
    .skipping (srcFilenameOf env id)]

/-- The loop of `syncAlbum` over the asset ids. -/
def syncAssets (env : Env) (album : AlbumMetadata) (libraryBase outputBase : String) :
    List Int → St → St × Option Error
  | [], st => (st, none)
  | id :: rest, st =>
    match syncAsset env album libraryBase outputBase id st with
    | (st1, some err) => (st1, some err)
    | (st1, none) => syncAssets env album libraryBase outputBase rest st1

/-- Lines 76-89 of `syncAlbum`: make sure the album directory exists. -/
def ensureDir (env : Env) (album : AlbumMetadata) (outputBase : String) (st : St) :
    St × Option Error :=
  let st := st.emit (.syncing album.Name album.AssetIDs.length)
  let dir := env.join [outputBase, album.Name]
  let st := st.emit (.stat dir)
  match osStat env st.fs dir with
  | .ok _ => (st, none)
  | .error err =>
    if !isNotExist err then (st, some err)
    else
      let st := st.emit (.mkdir dir)
      match osMkdir env st.fs dir with
      | .error err => (st, some err)
      | .ok fs1 => ({ st with fs := fs1 }, none)

/-- The function `syncAlbum`. -/
def syncAlbum (env : Env) (album : AlbumMetadata) (libraryBase outputBase : String) (st : St) :
    St × Option Error :=
  match ensureDir env album outputBase st with
  | (st0, some err) => (st0, some err)
  | (st0, none) => syncAssets env album libraryBase outputBase album.AssetIDs st0

/-- The loop of `sync` over the albums. -/
def syncAlbums (env : Env) (libraryPath outputPath : String) :
    List AlbumMetadata → St → St × Option Error
  | [], st => (st, none)
  | album :: rest, st =>
    match syncAlbum env album libraryPath outputPath st with
    | (st1, some err) => (st1, some err)
    | (st1, none) => syncAlbums env libraryPath outputPath rest st1

/-- The function `sync`, from the open handle on. -/
def sync (env : Env) (libraryPath outputPath : String) (st : St) : St × Option Error :=
  match findAlbumEntityValue env.db with
  | (_, some err) => (st, some err)
  | (entityValue, none) =>
    let st := st.emit (.foundEntity entityValue)
    match findAlbums env.db entityValue with
    | .error err => (st, some err)
    | .ok albums => syncAlbums env libraryPath outputPath albums st

/-! ## Small stores and environments for the examples -/

/-- Error text of `sql.ErrNoRows`. -/
def errNoRows : Error := .msg "sql: no rows in result set"

/-- A store in which every query returns no row. -/
def emptyDB : DB where
  tableNames := .ok []
  albumRows := fun _ => .ok []
  columnNames := fun _ => .ok []
  assetIDs := fun _ _ _ => .ok []
  assetRow := fun _ => .error errNoRows

/-- Joining path elements with a slash; `path.Join` on clean non-empty elements. -/
def slashJoin (parts : List String) : String := "/".intercalate parts

/-- An environment without faults, with a converter that answers fixed bytes. -/
def plainEnv (db : DB) : Env where
  db := db
  join := slashJoin
  newImage := fun data => .ok data
  exportJpeg := fun _ => .ok [255, 216, 255]
  accessFault := fun _ => none
  mkdirFault := fun _ => none
  createFault := fun _ => none
  openFault := fun _ => none
  copyFault := fun _ => none
  syncFault := fun _ => none

/-- A file system from a list of paths and nodes. -/
def fsOf (entries : List (String × Node)) : FS := fun q => (entries.find? (fun e => e.1 == q)).map (·.2)

/-- A library of three assets: a HEIC image, a PNG image, and a row whose file is missing. -/
def sampleDB : DB where
  tableNames := .ok [.ok "ZASSET", .ok "Z_5ASSETS", .ok "ZGENERICALBUM"]
  albumRows := fun e =>
    if e = 5 then .ok [.ok (1, none), .ok (2, some ""), .ok (3, some "progress-export"),
      .ok (4, some "Vacation")] else .ok []
  columnNames := fun e => if e = 5 then .ok [.ok "Z_5ALBUMS", .ok "Z_3ASSETS"] else .ok []
  assetIDs := fun col e pk => if col = "Z_3ASSETS" ∧ e = 5 ∧ pk = 4 then .ok [.ok 10, .ok 11] else .ok []
  assetRow := fun id =>
    if id = 10 then .ok ("A", "IMG_0001.heic")
    else if id = 11 then .ok ("B", "IMG_0002.png")
    else if id = 12 then .ok ("C", "IMG_0003.png")
    else .error errNoRows

/-- The source tree of `sampleDB`, and an output directory. -/
def sampleFS : FS := fsOf [("lib/originals/A/IMG_0001.heic", .file [1, 2, 3]),
  ("lib/originals/B/IMG_0002.png", .file [4, 5]), ("out", .dir)]

/-- The album `Vacation` of `sampleDB`. -/
def vacation : AlbumMetadata := ⟨4, "Vacation", [10, 11]⟩

/-- The store `sampleDB` with an album of five assets whose third has no row, followed by
a second album. -/
def brokenDB : DB :=
  { sampleDB with
    albumRows := fun e => if e = 5 then .ok [.ok (4, some "Vacation"), .ok (6, some "Later")] else .ok []
    assetIDs := fun col e pk =>
      if col = "Z_3ASSETS" ∧ e = 5 ∧ pk = 4 then .ok [.ok 10, .ok 11, .ok 99, .ok 12, .ok 13]
      else .ok [.ok 10] }

/-- The first album of `brokenDB`. -/
def brokenAlbum : AlbumMetadata := ⟨4, "Vacation", [10, 11, 99, 12, 13]⟩

/-- An album whose second asset has a row in `sampleDB` but no file in `sampleFS`. -/
def missingAlbum : AlbumMetadata := ⟨4, "Vacation", [11, 12]⟩

/-- The file system `sampleFS` with an older file already at the destination of asset 11. -/
def staleFS : FS := fsOf [("lib/originals/A/IMG_0001.heic", .file [1, 2, 3]),
  ("lib/originals/B/IMG_0002.png", .file [4, 5]), ("out", .dir), ("out/Vacation", .dir),
  ("out/Vacation/IMG_0002.png", .file [0])]

/-- The album `Vacation` with asset 11 first. -/
def staleAlbum : AlbumMetadata := ⟨4, "Vacation", [11, 10]⟩

/-- A store with one asset whose file name ends in `heic` without a dot before it. -/
def scanDB : DB :=
  { emptyDB with assetRow := fun id => if id = 20 then .ok ("D", "scanheic") else .error errNoRows }

/-- The source tree of `scanDB` and an output directory. -/
def scanFS : FS := fsOf [("lib/originals/D/scanheic", .file [7, 7]), ("out", .dir)]

/-- An album holding the asset of `scanDB`. -/
def scanAlbum : AlbumMetadata := ⟨1, "Scans", [20]⟩

/-- Error text of a denied permission. -/
def errPermission : Error := .msg "permission denied"

/-- The environment `plainEnv` in which nothing inside the directory `out/Vacation` can be
reached: the directory has lost its search permission. -/
def lockedEnv (db : DB) : Env :=
  { plainEnv db with
    accessFault := fun p => if hasPrefix p "out/Vacation/" then some errPermission else none }

/-- The environment `plainEnv` with a converter that rejects every input. -/
def badCodecEnv (db : DB) : Env :=
  { plainEnv db with newImage := fun _ => .error (.msg "unsupported image format") }

/-- A store with one titled album whose junction table has no asset column. -/
def noAssetColumnDB : DB :=
  { emptyDB with
    tableNames := .ok [.ok "Z_5ASSETS"]
    albumRows := fun _ => .ok [.ok (1, some "Vacation")]
    columnNames := fun _ => .ok [.ok "Z_5ALBUMS", .ok "Z_PK"] }

/-- A store whose catalog lists the given table names and nothing else. -/
def catalogDB (names : List String) : DB :=
  { emptyDB with tableNames := .ok (names.map .ok) }

/-- A store whose junction table has the given column names. -/
def columnsDB (names : List String) : DB :=
  { emptyDB with columnNames := fun _ => .ok (names.map .ok) }

/-- The rows an album listing keeps, in the words of the specification: the title is
present, is not empty, and does not begin with the reserved prefix. -/
def titleKept : Option String → Bool
  | some title => decide (title ≠ "") && !hasPrefix title "progress-"
  | none => false

/-- The albums kept from the scanned rows, given the asset ids of each album. -/
def keptAlbums (ids : Int → List Int) (rows : List (Int × Option String)) : List AlbumMetadata :=
  rows.filterMap (fun r => if skipTitle r.2 then none else some ⟨r.1, r.2.getD "", ids r.1⟩)

/-! ## The regular expression -/

theorem isDigit_A : isDigit 'A' = false := by decide

theorem takeWhile_digits (ds t : List Char) (h : ∀ c ∈ ds, isDigit c = true) :
    (ds ++ 'A' :: t).takeWhile isDigit = ds := by
  induction ds with
  | nil => simp [List.takeWhile, isDigit_A]
  | cons d ds ih =>
    have hd : isDigit d = true := h d (by simp)
    simp only [List.cons_append, List.takeWhile_cons, hd, if_true]
    rw [ih (fun c hc => h c (by simp [hc]))]

theorem dropWhile_digits (ds t : List Char) (h : ∀ c ∈ ds, isDigit c = true) :
    (ds ++ 'A' :: t).dropWhile isDigit = 'A' :: t := by
  induction ds with
  | nil => simp [List.dropWhile, isDigit_A]
  | cons d ds ih =>
    have hd : isDigit d = true := h d (by simp)
    simp only [List.cons_append, List.dropWhile_cons, hd, if_true]
    exact ih (fun c hc => h c (by simp [hc]))

/-- The anchored matcher accepts exactly the inputs that start with an occurrence. -/
theorem matchHere_eq_some_iff (s ds : List Char) :
    matchHere s = some ds ↔ OccursAt s [] ds := by
  constructor
  · intro h
    unfold matchHere at h
    split at h
    · rename_i rest
      simp only [Bool.and_eq_true, Bool.not_eq_true', ite_eq_left_iff] at h
      split at h
      · rename_i hc
        obtain ⟨h1, h2⟩ := hc
        have hds : rest.takeWhile isDigit = ds := by simpa using h
        obtain ⟨post, hpost⟩ := List.isPrefixOf_iff_prefix.mp h2
        refine ⟨?_, ?_, post, ?_⟩
        · rw [← hds]; intro h0; simp [h0] at h1
        · intro c hc; rw [← hds] at hc; exact (List.mem_takeWhile_imp hc)
        · have := List.takeWhile_append_dropWhile isDigit rest
          rw [← hpost, hds] at this
          simp only [List.nil_append, List.cons_append, List.append_assoc, List.cons.injEq, true_and]
          exact this.symm
      · exact absurd h (by simp)
    · exact absurd h (by simp)
  · rintro ⟨hne, hdig, post, rfl⟩
    have e1 : (ds ++ assetsLit ++ post) = ds ++ 'A' :: (['S', 'S', 'E', 'T', 'S'] ++ post) := by
      simp [assetsLit]
    simp only [List.nil_append, List.cons_append, matchHere, e1]
    rw [takeWhile_digits _ _ hdig, dropWhile_digits _ _ hdig]
    have : ds.isEmpty = false := by cases ds <;> simp_all
    simp [this, assetsLit]

/-- The search returns the digit run of the leftmost occurrence of the pattern. -/
theorem findMatch_eq_some_iff (s ds : List Char) :
    findMatch s = some ds ↔
      ∃ pre, OccursAt s pre ds ∧ ∀ pre2 ds2, OccursAt s pre2 ds2 → pre.length ≤ pre2.length := by
  induction s with
  | nil =>
    constructor
    · intro h
      simp [findMatch] at h
    · rintro ⟨pre, ⟨_, _, post, h⟩, _⟩
      simp at h
  | cons c cs ih =>
    unfold findMatch
    cases hm : matchHere (c :: cs) with
    | some d =>
      have hocc := (matchHere_eq_some_iff _ _).mp hm
      simp only [Option.some.injEq]
      constructor
      · rintro rfl
        exact ⟨[], hocc, fun _ _ _ => by simp⟩
      · rintro ⟨pre, hpre, hmin⟩
        have h0 := hmin [] d hocc
        have : pre = [] := by simpa using h0
        subst this
        have := (matchHere_eq_some_iff _ _).mpr hpre
        rw [hm] at this
        exact Option.some.inj this
    | none =>
      simp only
      rw [ih]
      have hno : ∀ d, ¬ OccursAt (c :: cs) [] d := fun d hd => by
        have := (matchHere_eq_some_iff _ _).mpr hd
        rw [hm] at this; exact absurd this (by simp)
      have shift : ∀ pre d, OccursAt (c :: cs) (c :: pre) d ↔ OccursAt cs pre d := by
        intro pre d
        simp [OccursAt]
      have hcons : ∀ pre d, OccursAt (c :: cs) pre d → ∃ pre1, pre = c :: pre1 := by
        intro pre d hd
        cases pre with
        | nil => exact absurd hd (hno d)
        | cons x pre1 =>
          obtain ⟨_, _, post, hp⟩ := hd
          simp only [List.cons_append, List.cons.injEq] at hp
          exact ⟨pre1, by rw [hp.1]⟩
      constructor
      · rintro ⟨pre, hpre, hmin⟩
        refine ⟨c :: pre, (shift _ _).mpr hpre, ?_⟩
        intro pre2 ds2 h2
        obtain ⟨pre1, rfl⟩ := hcons _ _ h2
        have := hmin pre1 ds2 ((shift _ _).mp h2)
        simpa using this
      · rintro ⟨pre, hpre, hmin⟩
        obtain ⟨pre1, rfl⟩ := hcons _ _ hpre
        refine ⟨pre1, (shift _ _).mp hpre, ?_⟩
        intro pre2 ds2 h2
        have := hmin (c :: pre2) ds2 ((shift _ _).mpr h2)
        simpa using this

/-- The search fails only on inputs without an occurrence of the pattern. -/
theorem findMatch_eq_none (s : List Char) (h : findMatch s = none) (pre ds : List Char) :
    ¬ OccursAt s pre ds := by
  induction s generalizing pre with
  | nil =>
    rintro ⟨_, _, post, hp⟩
    simp at hp
  | cons c cs ih =>
    unfold findMatch at h
    cases hm : matchHere (c :: cs) with
    | some d => rw [hm] at h; exact absurd h (by simp)
    | none =>
      rw [hm] at h
      simp only at h
      intro hocc
      cases pre with
      | nil =>
        have := (matchHere_eq_some_iff _ _).mpr hocc
        rw [hm] at this; exact absurd this (by simp)
      | cons x pre1 =>
        apply ih h pre1
        obtain ⟨h1, h2, post, hp⟩ := hocc
        simp only [List.cons_append, List.cons.injEq] at hp
        exact ⟨h1, h2, post, by simpa using hp.2⟩

/-- A name matches the pattern exactly when it holds an occurrence of it. -/
theorem matchString_iff (s : String) :
    matchString s = true ↔ ∃ pre ds, OccursAt s.data pre ds := by
  unfold matchString
  constructor
  · intro h
    obtain ⟨ds, hds⟩ := Option.isSome_iff_exists.mp h
    obtain ⟨pre, hpre, _⟩ := (findMatch_eq_some_iff _ _).mp hds
    exact ⟨pre, ds, hpre⟩
  · rintro ⟨pre, ds, h⟩
    cases hf : findMatch s.data with
    | some d => rfl
    | none =>
      exact absurd h (findMatch_eq_none _ hf pre ds)

/-! ## Schema discovery -/

theorem isDigit_ne_sign (c : Char) (h : isDigit c = true) : c ≠ '-' ∧ c ≠ '+' := by
  constructor <;> rintro rfl <;> exact absurd h (by decide)

/-- On a non-empty run of digits `strconv.Atoi` returns its value, or the range error. -/
theorem atoi_digits (ds : List Char) (hne : ds ≠ []) (hdig : ∀ c ∈ ds, isDigit c = true) :
    atoi ⟨ds⟩ = if decimalValue ds < 2 ^ 63 then ((decimalValue ds : Int), none)
      else (2 ^ 63 - 1, some errRange) := by
  have hall : ds.all isDigit = true := by simpa [List.all_eq_true] using hdig
  have hemp : ds.isEmpty = false := by cases ds <;> simp_all
  have key : atoi ⟨ds⟩ = atoiDigits false ds := by
    unfold atoi
    split
    · rename_i ds1 heq
      simp only at heq
      have := (isDigit_ne_sign '-' (hdig _ (by rw [heq]; simp))).1
      exact absurd rfl this
    · rename_i ds1 heq
      simp only at heq
      have := (isDigit_ne_sign '+' (hdig _ (by rw [heq]; simp))).2
      exact absurd rfl this
    · rfl
  rw [key]
  simp [atoiDigits, hall, hemp, intSize]

theorem findAlbumEntityValueLoop_skip (before : List String) (rest : List (Except Error String))
    (h : ∀ n ∈ before, matchString n = false) :
    findAlbumEntityValueLoop (before.map .ok ++ rest) = findAlbumEntityValueLoop rest := by
  induction before with
  | nil => rfl
  | cons n ns ih =>
    have hn : findMatch n.data = none := by
      have := h n (by simp)
      simpa [matchString] using this
    simp only [List.map_cons, List.cons_append, findAlbumEntityValueLoop, findStringSubmatch, hn,
      List.length_nil, Nat.ofNat_pos, if_true]
    exact ih (fun m hm => h m (by simp [hm]))

/-- Without a matching table name the loop of `findAlbumEntityValue` falls through to its
last line. -/
theorem findAlbumEntityValue_no_match (names : List String)
    (h : ∀ n ∈ names, matchString n = false) :
    findAlbumEntityValue (catalogDB names) = (-1, none) := by
  have := findAlbumEntityValueLoop_skip names [] h
  simpa [findAlbumEntityValue, catalogDB, findAlbumEntityValueLoop] using this

/-- C1 (amended): when the catalog query and its scans succeed and some table name matches
`Z_(\d+)ASSETS`, `findAlbumEntityValue` looks only at the first matching name, whatever
stands before and after it, and returns what `strconv.Atoi` makes of its digit run `ds`
(the capture of the leftmost match): the value without error when it is below `2^63`,
else the largest `int` together with the range error. -/
theorem findAlbumEntityValue_first_match (db : DB) (before after : List String) (name : String)
    (ds : List Char)
    (hq : db.tableNames = .ok ((before ++ name :: after).map .ok))
    (hbefore : ∀ n ∈ before, matchString n = false)
    (hname : findMatch name.data = some ds) :
    findAlbumEntityValue db =
      if decimalValue ds < 2 ^ 63 then ((decimalValue ds : Int), none)
      else (2 ^ 63 - 1, some errRange) := by
  obtain ⟨pre, ⟨hne, hdig, _⟩, _⟩ := (findMatch_eq_some_iff _ _).mp hname
  unfold findAlbumEntityValue
  rw [hq]
  simp only [List.map_append, List.map_cons]
  rw [findAlbumEntityValueLoop_skip before _ hbefore]
  simp only [findAlbumEntityValueLoop, findStringSubmatch, hname, List.length_cons,
    List.length_nil, List.getD_cons_succ, List.getD_cons_zero]
  simpa using atoi_digits ds hne hdig

/-- Witness of C1: the catalog `Z_5ASSETS`, `Z_5ALBUMS`, `OTHERTABLE` gives 5. -/
theorem findAlbumEntityValue_first_match_witness :
    (catalogDB ["Z_5ASSETS", "Z_5ALBUMS", "OTHERTABLE"]).tableNames
        = .ok (([] ++ "Z_5ASSETS" :: ["Z_5ALBUMS", "OTHERTABLE"]).map .ok)
      ∧ (∀ n ∈ ([] : List String), matchString n = false)
      ∧ findMatch "Z_5ASSETS".data = some ['5']
      ∧ findAlbumEntityValue (catalogDB ["Z_5ASSETS", "Z_5ALBUMS", "OTHERTABLE"]) = (5, none) :=
  ⟨rfl, by decide, by decide,
    (findAlbumEntityValue_first_match (catalogDB ["Z_5ASSETS", "Z_5ALBUMS", "OTHERTABLE"]) []
      ["Z_5ALBUMS", "OTHERTABLE"] "Z_5ASSETS" ['5'] rfl (by decide) (by decide)).trans
      (by decide)⟩

/-- C1 as stated fails: the only table name matches the pattern, its digit run denotes
`10^20 - 1`, and `findAlbumEntityValue` returns the range error of `strconv.Atoi` with the
largest `int`, not that value without error. -/
theorem findAlbumEntityValue_digit_run_overflow :
    matchString "Z_99999999999999999999ASSETS" = true
      ∧ findMatch "Z_99999999999999999999ASSETS".data = some "99999999999999999999".data
      ∧ findAlbumEntityValue (catalogDB ["Z_99999999999999999999ASSETS"])
          = (9223372036854775807, some errRange)
      ∧ findAlbumEntityValue (catalogDB ["Z_99999999999999999999ASSETS"])
          ≠ (99999999999999999999, none) := by
  decide

/-- C2 (the code at the failing input): with no matching table name, and with an empty
catalog, `findAlbumEntityValue` returns `-1` and no error; `sync` then prints the value
`-1`, calls `findAlbums` with it and returns `nil` (or the error of the album query, here
made to fail on purpose), not an error of schema discovery. -/
theorem findAlbumEntityValue_no_match_returns_nil :
    findAlbumEntityValue (catalogDB []) = (-1, none)
      ∧ findAlbumEntityValue (catalogDB ["Z_5ALBUMS", "OTHERTABLE"]) = (-1, none)
      ∧ (sync (plainEnv (catalogDB ["Z_5ALBUMS", "OTHERTABLE"])) "lib" "out" ⟨sampleFS, []⟩).2 = none
      ∧ (sync (plainEnv (catalogDB ["Z_5ALBUMS", "OTHERTABLE"])) "lib" "out" ⟨sampleFS, []⟩).1.log
          = [.foundEntity (-1)]
      ∧ (sync (plainEnv { catalogDB [] with
            albumRows := fun e => if e = -1 then .error (.msg "album query for -1") else .ok [] })
          "lib" "out" ⟨sampleFS, []⟩).2 = some (.msg "album query for -1") := by
  decide

/-! ## Column resolution -/

theorem columnNameLoop_eq (names : List String) :
    columnNameLoop (names.map .ok) = .ok ((names.find? matchString).getD "") := by
  induction names with
  | nil => rfl
  | cons n ns ih =>
    simp only [List.map_cons, columnNameLoop, List.find?_cons]
    cases h : matchString n <;> simp [ih]

/-- C7 (amended): when the column query and its scans succeed, asset-column resolution
returns the FIRST column name that matches `Z_\d+ASSETS` whenever at least one matches,
also when several do, and fails with the column-not-found error exactly when none
matches. -/
theorem resolveAssetColumn_first_match (db : DB) (entityID : Int) (names : List String)
    (hq : db.columnNames entityID = .ok (names.map .ok)) :
    resolveAssetColumn db entityID =
      match names.find? matchString with
      | some name => .ok name
      | none => .error errNoColumn := by
  unfold resolveAssetColumn
  rw [hq]
  simp only []
  rw [columnNameLoop_eq]
  cases h : names.find? matchString with
  | none => simp
  | some name =>
    have hm : matchString name = true := List.find?_some h
    have hne : name ≠ "" := by
      rintro rfl
      exact absurd hm (by decide)
    simp [hne]

/-- Witness of C7 (amended): the columns `Z_5ALBUMS`, `Z_3ASSETS` resolve to `Z_3ASSETS`. -/
theorem resolveAssetColumn_first_match_witness :
    (columnsDB ["Z_5ALBUMS", "Z_3ASSETS"]).columnNames 5 = .ok (["Z_5ALBUMS", "Z_3ASSETS"].map .ok)
      ∧ resolveAssetColumn (columnsDB ["Z_5ALBUMS", "Z_3ASSETS"]) 5 = .ok "Z_3ASSETS" :=
  ⟨rfl, (resolveAssetColumn_first_match (columnsDB ["Z_5ALBUMS", "Z_3ASSETS"]) 5
    ["Z_5ALBUMS", "Z_3ASSETS"] rfl).trans (by decide)⟩

/-- C7 as stated fails: two column names match the pattern, and resolution succeeds with
the first of them instead of failing. -/
theorem resolveAssetColumn_two_matches :
    matchString "Z_3ASSETS" = true ∧ matchString "Z_4ASSETS" = true
      ∧ resolveAssetColumn (columnsDB ["Z_3ASSETS", "Z_4ASSETS"]) 5 = .ok "Z_3ASSETS" := by
  decide

/-! ## Album listing -/

theorem skipTitle_eq_not_titleKept (t : Option String) : skipTitle t = !titleKept t := by
  cases t with
  | none => rfl
  | some title => simp [skipTitle, titleKept]

theorem findAlbumsLoop_eq (db : DB) (entityID : Int) (ids : Int → List Int)
    (rows : List (Int × Option String)) (acc : List AlbumMetadata)
    (hids : ∀ r ∈ rows, titleKept r.2 = true →
      findAssetIDsForAlbum db entityID r.1 = .ok (ids r.1)) :
    findAlbumsLoop db entityID (rows.map .ok) acc = .ok (acc ++ keptAlbums ids rows) := by
  induction rows generalizing acc with
  | nil => simp [findAlbumsLoop, keptAlbums]
  | cons r rs ih =>
    obtain ⟨pk, name⟩ := r
    have ih2 := fun acc => ih acc (fun r hr => hids r (by simp [hr]))
    simp only [List.map_cons, findAlbumsLoop]
    cases hs : skipTitle name with
    | true =>
      simp only [if_true]
      rw [ih2]
      simp [keptAlbums, List.filterMap_cons, hs]
    | false =>
      have hk : titleKept name = true := by
        have := skipTitle_eq_not_titleKept name
        rw [hs] at this
        simpa using this.symm
      have := hids (pk, name) (by simp) hk
      simp only at this
      simp only [Bool.false_eq_true, if_false, this]
      rw [ih2]
      simp [keptAlbums, List.filterMap_cons, hs]

/-- C3 (amended): when the album query and its scans succeed and `findAssetIDsForAlbum`
succeeds for each row that is kept (its two queries succeed and the junction table has a
column matching the asset pattern), `findAlbums` returns exactly the rows whose title is present, non-empty
and not beginning with `progress-`, in the order of the store, with `PK` and `Name` copied
from the row and `AssetIDs` from the lookup; every returned name is non-empty and does not
begin with `progress-`. -/
theorem findAlbums_keeps_titled_rows (db : DB) (entityID : Int)
    (rows : List (Int × Option String)) (ids : Int → List Int)
    (hq : db.albumRows entityID = .ok (rows.map .ok))
    (hids : ∀ r ∈ rows, titleKept r.2 = true →
      findAssetIDsForAlbum db entityID r.1 = .ok (ids r.1)) :
    ∃ albums, findAlbums db entityID = .ok albums
      ∧ albums.map (fun a => (a.PK, some a.Name)) = rows.filter (fun r => titleKept r.2)
      ∧ ∀ a ∈ albums, a.AssetIDs = ids a.PK ∧ a.Name ≠ "" ∧ hasPrefix a.Name "progress-" = false := by
  refine ⟨keptAlbums ids rows, ?_, ?_, ?_⟩
  · unfold findAlbums
    rw [hq]
    simp only []
    rw [findAlbumsLoop_eq db entityID ids rows [] hids]
    simp
  · clear hq hids
    induction rows with
    | nil => rfl
    | cons r rs ih =>
      obtain ⟨pk, name⟩ := r
      have hs := skipTitle_eq_not_titleKept name
      cases hk : titleKept name with
      | true =>
        rw [hk] at hs
        cases name with
        | none => exact absurd hk (by simp [titleKept])
        | some title =>
          simp only [keptAlbums, List.filterMap_cons, hs, Bool.not_true, Bool.false_eq_true,
            if_false, List.map_cons, Option.getD_some, List.filter_cons, hk, if_true]
          exact congrArg _ ih
      | false =>
        rw [hk] at hs
        simp only [keptAlbums, List.filterMap_cons, hs, Bool.not_false, if_true,
          List.filter_cons, hk, Bool.false_eq_true, if_false]
        exact ih
  · intro a ha
    simp only [keptAlbums, List.mem_filterMap] at ha
    obtain ⟨⟨pk, name⟩, _, hr⟩ := ha
    cases hs : skipTitle name with
    | true => simp [hs] at hr
    | false =>
      simp only [hs, Bool.false_eq_true, if_false, Option.some.injEq] at hr
      subst hr
      cases name with
      | none => exact absurd hs (by simp [skipTitle])
      | some title =>
        simp only [skipTitle, Bool.or_eq_false_iff, decide_eq_false_iff_not] at hs
        exact ⟨rfl, hs.1, hs.2⟩

/-- Witness of C3 (amended): of the titles null, empty, `progress-export` and `Vacation`, only
`Vacation` is returned. -/
theorem findAlbums_keeps_titled_rows_witness :
    sampleDB.albumRows 5
        = .ok ([(1, none), (2, some ""), (3, some "progress-export"), (4, some "Vacation")].map .ok)
      ∧ findAlbums sampleDB 5 = .ok [⟨4, "Vacation", [10, 11]⟩]
      ∧ ∃ albums, findAlbums sampleDB 5 = .ok albums
        ∧ albums.map (fun a => (a.PK, some a.Name))
            = [(1, none), (2, some ""), (3, some "progress-export"), (4, some "Vacation")].filter
                (fun r => titleKept r.2)
        ∧ ∀ a ∈ albums, a.AssetIDs = (fun _ => [10, 11]) a.PK ∧ a.Name ≠ ""
            ∧ hasPrefix a.Name "progress-" = false :=
  ⟨rfl, by decide,
    findAlbums_keeps_titled_rows sampleDB 5
      [(1, none), (2, some ""), (3, some "progress-export"), (4, some "Vacation")]
      (fun _ => [10, 11]) rfl (by decide)⟩

/-- C3 as stated fails: every query of the run succeeds and every row scans, the only album
row is titled `Vacation`, but the junction table has no column matching `Z_\d+ASSETS`, so
the asset lookup of the kept row fails and `findAlbums` returns that error instead of the
row. -/
theorem findAlbums_fails_without_asset_column :
    noAssetColumnDB.albumRows 5 = .ok [.ok (1, some "Vacation")]
      ∧ noAssetColumnDB.columnNames 5 = .ok [.ok "Z_5ALBUMS", .ok "Z_PK"]
      ∧ (∀ col pk, ∃ rows, noAssetColumnDB.assetIDs col 5 pk = .ok rows)
      ∧ titleKept (some "Vacation") = true
      ∧ findAlbums noAssetColumnDB 5 = .error errNoColumn :=
  ⟨rfl, rfl, fun _ _ => ⟨[], rfl⟩, by decide, by decide⟩

/-! ## Destination file names -/

/-- No occurrence of `.heic` starts inside a non-empty stem that is free of it and ends in
the extension that follows the stem. -/
theorem heic_not_prefix_of_stem (c : Char) (cs : List Char)
    (h : ¬ ".heic".data <:+: c :: cs) :
    ".heic".data.isPrefixOf (c :: cs ++ ".heic".data) = false := by
  cases hp : ".heic".data.isPrefixOf (c :: cs ++ ".heic".data) with
  | false => rfl
  | true =>
    exfalso
    rcases cs with _ | ⟨c2, _ | ⟨c3, _ | ⟨c4, _ | ⟨c5, rest⟩⟩⟩⟩
    · simp [List.isPrefixOf] at hp
    · simp [List.isPrefixOf] at hp
    · simp [List.isPrefixOf] at hp
    · simp [List.isPrefixOf] at hp
    · simp only [List.cons_append, List.isPrefixOf, Bool.and_eq_true, beq_iff_eq, Bool.and_true] at hp
      obtain ⟨h1, h2, h3, h4, h5⟩ := hp
      apply h
      refine ⟨[], rest, ?_⟩
      subst h1 h2 h3 h4 h5
      rfl

/-- On a stem free of `.heic`, the replacement rewrites the extension and nothing else. -/
theorem replaceAllAux_stem (stem : List Char) (h : ¬ ".heic".data <:+: stem) :
    replaceAllAux ".heic".data ".jpeg".data 0 (stem ++ ".heic".data) = stem ++ ".jpeg".data := by
  induction stem with
  | nil => decide
  | cons c cs ih =>
    have hcs : ¬ ".heic".data <:+: cs := fun hi => h (List.infix_cons hi)
    have hp := heic_not_prefix_of_stem c cs h
    show replaceAllAux ".heic".data ".jpeg".data 0 (c :: (cs ++ ".heic".data)) = _
    rw [replaceAllAux]
    simp only [List.cons_append] at hp
    rw [hp]
    simp only [Bool.false_eq_true, if_false, List.cons_append, List.cons.injEq, true_and]
    exact ih hcs

/-- A file name made of a stem free of `.heic` followed by
`.heic` becomes the stem followed by `.jpeg`. -/
theorem dstFilename_of_heic (stem : String) (h : ¬ ".heic".data <:+: stem.data) :
    dstFilename (stem ++ ".heic") = stem ++ ".jpeg" := by
  have hs : hasSuffix (stem ++ ".heic") ".heic" = true := by
    simp [hasSuffix, String.data_append]
  unfold dstFilename
  rw [hs]
  simp only [if_true, replaceAll]
  apply String.ext
  simp only [String.data_append]
  exact replaceAllAux_stem stem.data h

/-- A file name that does not end in `.heic` is kept. -/
theorem dstFilename_of_other (srcFilename : String) (h : hasSuffix srcFilename ".heic" = false) :
    dstFilename srcFilename = srcFilename := by
  simp [dstFilename, h]

/-- A file name that is renamed is also converted. -/
theorem isConverted_of_renamed (srcFilename : String) (h : hasSuffix srcFilename ".heic" = true) :
    isConverted srcFilename = true := by
  unfold isConverted hasSuffix at *
  rw [List.isSuffixOf_iff_suffix] at *
  exact List.IsSuffix.trans ⟨['.'], rfl⟩ h

/-- C4 (the code at the failing input): the two file names of the specification come out
as stated, but a stem that itself holds `.heic` is rewritten too: `trip.heic.heic` becomes
`trip.jpeg.jpeg`, not `trip.heic.jpeg`. -/
theorem dstFilename_rewrites_stem :
    dstFilename "IMG_0001.heic" = "IMG_0001.jpeg"
      ∧ dstFilename "IMG_0002.png" = "IMG_0002.png"
      ∧ dstFilename ("trip.heic" ++ ".heic") = "trip.jpeg.jpeg"
      ∧ dstFilename ("trip.heic" ++ ".heic") ≠ "trip.heic" ++ ".jpeg" := by
  decide

/-! ## The copy/convert loop: what a step changes -/

theorem FS.set_same (fs : FS) (p : String) (n : Node) : fs.set p n p = some n := by
  simp [FS.set]

theorem FS.set_other (fs : FS) (p q : String) (n : Node) (h : q ≠ p) : fs.set p n q = fs q := by
  simp [FS.set, h]

theorem osCreate_ok (env : Env) (fs fs1 : FS) (p : String) (h : osCreate env fs p = .ok fs1) :
    fs1 = fs.set p (.file []) ∧ env.accessFault p = none := by
  unfold osCreate at h
  split at h
  · exact absurd h (by simp)
  · rename_i ha
    split at h
    · exact absurd h (by simp)
    · split at h
      · exact absurd h (by simp)
      · exact ⟨(Except.ok.inj h).symm, ha⟩

theorem osCreate_unreachable (env : Env) (fs : FS) (p : String) (e : Error)
    (h : env.accessFault p = some e) : osCreate env fs p = .error e := by
  simp [osCreate, h]

theorem osMkdir_ok (env : Env) (fs fs1 : FS) (p : String) (h : osMkdir env fs p = .ok fs1) :
    fs1 = fs.set p .dir ∧ env.accessFault p = none ∧ fs p = none := by
  unfold osMkdir at h
  split at h
  · exact absurd h (by simp)
  · rename_i ha
    split at h
    · exact absurd h (by simp)
    · split at h
      · exact absurd h (by simp)
      · rename_i hp
        exact ⟨(Except.ok.inj h).symm, ha, hp⟩

theorem osStat_ok_iff (env : Env) (fs : FS) (p : String) (n : Node) :
    osStat env fs p = .ok n ↔ env.accessFault p = none ∧ fs p = some n := by
  unfold osStat
  cases env.accessFault p <;> cases fs p <;> simp

theorem osStat_error (env : Env) (fs : FS) (p : String) (e : Error)
    (h : osStat env fs p = .error e) : env.accessFault p = some e ∨ fs p = none := by
  unfold osStat at h
  cases ha : env.accessFault p with
  | some e2 =>
    rw [ha] at h
    exact Or.inl (congrArg some (Except.error.inj h))
  | none =>
    rw [ha] at h
    cases hp : fs p with
    | none => exact Or.inr rfl
    | some n => rw [hp] at h; exact absurd h (by simp)

theorem osStat_set (env : Env) (fs : FS) (p q : String) (n m : Node)
    (h : osStat env fs q = .ok m) : ∃ m2, osStat env (fs.set p n) q = .ok m2 := by
  obtain ⟨ha, hq⟩ := (osStat_ok_iff _ _ _ _).mp h
  by_cases hqp : q = p
  · exact ⟨n, (osStat_ok_iff _ _ _ _).mpr ⟨ha, by simp [FS.set, hqp]⟩⟩
  · exact ⟨m, (osStat_ok_iff _ _ _ _).mpr ⟨ha, by simp [FS.set, hqp, hq]⟩⟩

theorem ioCopy_other (env : Env) (fs : FS) (dst : String) (src : Except Error (List Nat))
    (q : String) (h : q ≠ dst) : (ioCopy env fs dst src).1 q = fs q := by
  unfold ioCopy
  split
  · rfl
  · split <;> simp [FS.set, h]

theorem ioCopy_dest (env : Env) (fs : FS) (dst : String) (src : Except Error (List Nat))
    (n : Node) (h : fs dst = some n) : ∃ m, (ioCopy env fs dst src).1 dst = some m := by
  unfold ioCopy
  split
  · exact ⟨n, h⟩
  · split <;> simp [FS.set]

/-- The work on a new destination touches no other path. -/
theorem writeAsset_other (env : Env) (lib d f outputPath : String) (st : St) (q : String)
    (h : q ≠ outputPath) : (writeAsset env lib d f outputPath st).1.fs q = st.fs q := by
  unfold writeAsset
  simp only [St.emit]
  split
  · rfl
  · rename_i fs1 hc
    have hfs1 := (osCreate_ok _ _ _ _ hc).1
    have h1 : fs1 q = st.fs q := by rw [hfs1]; exact FS.set_other _ _ _ _ h
    split
    · exact h1
    · split
      · split
        · exact h1
        all_goals
          split
          all_goals
            rename_i heq
            have := congrArg (fun r => r.1 q) heq
            simp only at this
            simp only [← this, ioCopy_other _ _ _ _ _ h]
            exact h1
      · split
        all_goals
          rename_i heq
          have := congrArg (fun r => r.1 q) heq
          simp only at this
          simp only [← this, ioCopy_other _ _ _ _ _ h]
          exact h1

/-- Once `os.Create` has succeeded the destination holds a file, however the work ends. -/
theorem writeAsset_dest (env : Env) (lib d f outputPath : String) (st : St) (fs1 : FS)
    (hc : osCreate env st.fs outputPath = .ok fs1) :
    ∃ m, (writeAsset env lib d f outputPath st).1.fs outputPath = some m := by
  have hfs1 := (osCreate_ok _ _ _ _ hc).1
  have h1 : fs1 outputPath = some (.file []) := by rw [hfs1]; exact FS.set_same _ _ _
  unfold writeAsset
  simp only [St.emit, hc]
  split
  · exact ⟨_, h1⟩
  · split
    · split
      · exact ⟨_, h1⟩
      all_goals
        split
        all_goals
          rename_i heq
          have := congrArg (fun r => r.1 outputPath) heq
          simp only at this
          simp only [← this]
          exact ioCopy_dest _ _ _ _ _ h1
    · split
      all_goals
        rename_i heq
        have := congrArg (fun r => r.1 outputPath) heq
        simp only at this
        simp only [← this]
        exact ioCopy_dest _ _ _ _ _ h1

/-- When the destination cannot be reached, `os.Create` fails and nothing is changed. -/
theorem writeAsset_unreachable (env : Env) (lib d f outputPath : String) (st : St) (e : Error)
    (h : env.accessFault outputPath = some e) :
    writeAsset env lib d f outputPath st
      = (⟨st.fs, st.log ++ [.create outputPath]⟩, some e) := by
  unfold writeAsset
  simp [St.emit, osCreate_unreachable env st.fs outputPath e h]

theorem writeAsset_ok_dest (env : Env) (lib d f outputPath : String) (st st1 : St)
    (h : writeAsset env lib d f outputPath st = (st1, none)) :
    ∃ m, osStat env st1.fs outputPath = .ok m := by
  cases hc : osCreate env st.fs outputPath with
  | error e =>
    unfold writeAsset at h
    simp only [St.emit, hc] at h
    exact absurd (congrArg Prod.snd h) (by simp)
  | ok fs1 =>
    obtain ⟨m, hm⟩ := writeAsset_dest env lib d f outputPath st fs1 hc
    rw [h] at hm
    exact ⟨m, (osStat_ok_iff _ _ _ _).mpr ⟨(osCreate_ok _ _ _ _ hc).2, hm⟩⟩

/-- The step taken for an asset whose destination `os.Stat` reports. -/
theorem syncAsset_skip (env : Env) (album : AlbumMetadata) (lib out : String) (id : Int)
    (st : St) (d f : String) (n : Node)
    (hloc : findAssetLocation env.db id = .ok (d, f))
    (hex : osStat env st.fs (outputPathOf env album out f) = .ok n) :
    syncAsset env album lib out id st =
      (⟨st.fs, st.log ++ [.locate id, .stat (outputPathOf env album out f), .skipping f]⟩, none) := by
  unfold syncAsset
  simp [St.emit, hloc, hex]

/-- A step never changes what an existing path holds. -/
theorem syncAsset_preserves (env : Env) (album : AlbumMetadata) (lib out : String) (id : Int)
    (st : St) (p : String) (n : Node) (hp : st.fs p = some n) :
    (syncAsset env album lib out id st).1.fs p = some n := by
  unfold syncAsset
  simp only [St.emit]
  split
  · exact hp
  · split
    · exact hp
    · rename_i e he
      rcases osStat_error _ _ _ _ he with ha | hnone
      · rw [writeAsset_unreachable _ _ _ _ _ _ e ha]
        exact hp
      · have hne : p ≠ outputPathOf env album out ‹String› := by
          rintro rfl
          rw [hnone] at hp; exact absurd hp (by simp)
        rw [writeAsset_other _ _ _ _ _ _ _ hne]
        exact hp

/-- After a step without error the asset is located and `os.Stat` reports its destination. -/
theorem syncAsset_ok (env : Env) (album : AlbumMetadata) (lib out : String) (id : Int)
    (st st1 : St) (h : syncAsset env album lib out id st = (st1, none)) :
    ∃ d f, findAssetLocation env.db id = .ok (d, f)
      ∧ ∃ m, osStat env st1.fs (outputPathOf env album out f) = .ok m := by
  unfold syncAsset at h
  simp only [St.emit] at h
  split at h
  · exact absurd (congrArg Prod.snd h) (by simp)
  · rename_i d f hloc
    refine ⟨d, f, hloc, ?_⟩
    split at h
    · rename_i n hn
      have hfs := congrArg (fun r => r.1.fs) h
      simp only at hfs
      rw [← hfs]
      exact ⟨n, hn⟩
    · exact writeAsset_ok_dest _ _ _ _ _ _ _ h


theorem syncAssets_preserves (env : Env) (album : AlbumMetadata) (lib out : String)
    (ids : List Int) (st : St) (p : String) (n : Node) (hp : st.fs p = some n) :
    (syncAssets env album lib out ids st).1.fs p = some n := by
  induction ids generalizing st with
  | nil => exact hp
  | cons id rest ih =>
    unfold syncAssets
    have h1 := syncAsset_preserves env album lib out id st p n hp
    split
    · rename_i heq; rw [heq] at h1; exact h1
    · rename_i heq; rw [heq] at h1; exact ih _ h1

/-- After a loop without error every asset is located and `os.Stat` reports its
destination. -/
theorem syncAssets_ok (env : Env) (album : AlbumMetadata) (lib out : String)
    (ids : List Int) (st st1 : St) (h : syncAssets env album lib out ids st = (st1, none)) :
    ∀ id ∈ ids, ∃ d f, findAssetLocation env.db id = .ok (d, f)
      ∧ ∃ m, osStat env st1.fs (outputPathOf env album out f) = .ok m := by
  induction ids generalizing st with
  | nil => intro id hid; exact absurd hid (by simp)
  | cons id0 rest ih =>
    unfold syncAssets at h
    split at h
    · exact absurd (congrArg Prod.snd h) (by simp)
    · rename_i st0 heq
      intro id hid
      rcases List.mem_cons.mp hid with rfl | hid
      · obtain ⟨d, f, hloc, m, hm⟩ := syncAsset_ok _ _ _ _ _ _ _ heq
        refine ⟨d, f, hloc, m, ?_⟩
        obtain ⟨ha, hm⟩ := (osStat_ok_iff _ _ _ _).mp hm
        have := syncAssets_preserves env album lib out rest st0 _ m hm
        rw [h] at this
        exact (osStat_ok_iff _ _ _ _).mpr ⟨ha, this⟩
      · exact ih _ h id hid

/-- A run of assets that are located and whose destinations `os.Stat` reports: each is
skipped, the file system is untouched, and the loop goes on with what follows. -/
theorem syncAssets_skip_run (env : Env) (album : AlbumMetadata) (lib out : String)
    (pre post : List Int) (st : St)
    (h : ∀ id ∈ pre, ∃ d f, findAssetLocation env.db id = .ok (d, f)
      ∧ ∃ m, osStat env st.fs (outputPathOf env album out f) = .ok m) :
    syncAssets env album lib out (pre ++ post) st =
      syncAssets env album lib out post
        ⟨st.fs, st.log ++ pre.flatMap (skipLog env album out)⟩ := by
  induction pre generalizing st with
  | nil => simp
  | cons id rest ih =>
    obtain ⟨d, f, hloc, m, hm⟩ := h id (by simp)
    have step := syncAsset_skip env album lib out id st d f m hloc hm
    have hrest := ih ⟨st.fs, st.log ++ [.locate id, .stat (outputPathOf env album out f),
      .skipping f]⟩ (fun id2 hid2 => h id2 (by simp [hid2]))
    show syncAssets env album lib out (id :: (rest ++ post)) st = _
    rw [syncAssets, step]
    simp only
    rw [hrest]
    simp [List.flatMap_cons, skipLog, srcFilenameOf, hloc]

theorem ensureDir_preserves (env : Env) (album : AlbumMetadata) (out : String) (st : St)
    (p : String) (n : Node) (hp : st.fs p = some n) :
    (ensureDir env album out st).1.fs p = some n := by
  unfold ensureDir
  simp only [St.emit]
  split
  · exact hp
  · split
    · exact hp
    · split
      · exact hp
      · rename_i fs1 hm
        obtain ⟨hfs1, _, hnone⟩ := osMkdir_ok _ _ _ _ hm
        simp only [hfs1]
        rw [FS.set_other]
        · exact hp
        · rintro rfl
          rw [hnone] at hp; exact absurd hp (by simp)

/-- After the directory step without error `os.Stat` reports the album directory. -/
theorem ensureDir_ok (env : Env) (album : AlbumMetadata) (out : String) (st st0 : St)
    (h : ensureDir env album out st = (st0, none)) :
    ∃ m, osStat env st0.fs (env.join [out, album.Name]) = .ok m := by
  unfold ensureDir at h
  simp only [St.emit] at h
  split at h
  · rename_i n hn
    have hfs := congrArg (fun r => r.1.fs) h
    simp only at hfs
    rw [← hfs]
    exact ⟨n, hn⟩
  · split at h
    · exact absurd (congrArg Prod.snd h) (by simp)
    · split at h
      · exact absurd (congrArg Prod.snd h) (by simp)
      · rename_i fs1 hm
        have hfs := congrArg (fun r => r.1.fs) h
        simp only at hfs
        rw [← hfs]
        obtain ⟨hfs1, ha, _⟩ := osMkdir_ok _ _ _ _ hm
        exact ⟨.dir, (osStat_ok_iff _ _ _ _).mpr ⟨ha, by rw [hfs1]; exact FS.set_same _ _ _⟩⟩

/-- The directory step when `os.Stat` reports the album directory. -/
theorem ensureDir_exists (env : Env) (album : AlbumMetadata) (out : String) (st : St) (m : Node)
    (h : osStat env st.fs (env.join [out, album.Name]) = .ok m) :
    ensureDir env album out st =
      (⟨st.fs, st.log ++ [.syncing album.Name album.AssetIDs.length,
        .stat (env.join [out, album.Name])]⟩, none) := by
  unfold ensureDir
  simp [St.emit, h]

/-- The directory step when the album directory cannot be reached: the error of `os.Stat` is
not a not-exist error, so it is returned and `os.Mkdir` is not called. -/
theorem ensureDir_unreachable (env : Env) (album : AlbumMetadata) (out : String) (st : St)
    (e : Error) (h : env.accessFault (env.join [out, album.Name]) = some e)
    (hne : isNotExist e = false) :
    ensureDir env album out st =
      (⟨st.fs, st.log ++ [.syncing album.Name album.AssetIDs.length,
        .stat (env.join [out, album.Name])]⟩, some e) := by
  unfold ensureDir
  simp [St.emit, osStat, h, hne]

theorem syncAlbum_preserves (env : Env) (album : AlbumMetadata) (lib out : String) (st : St)
    (p : String) (n : Node) (hp : st.fs p = some n) :
    (syncAlbum env album lib out st).1.fs p = some n := by
  unfold syncAlbum
  have h0 := ensureDir_preserves env album out st p n hp
  split
  · rename_i heq; rw [heq] at h0; exact h0
  · rename_i heq; rw [heq] at h0
    exact syncAssets_preserves _ _ _ _ _ _ _ _ h0

theorem pair_of_snd_none {α : Type} (x : α × Option Error) (h : x.2 = none) : x = (x.1, none) :=
  Prod.ext rfl h

theorem syncAssets_append (env : Env) (album : AlbumMetadata) (lib out : String)
    (pre post : List Int) (st st1 : St)
    (h : syncAssets env album lib out pre st = (st1, none)) :
    syncAssets env album lib out (pre ++ post) st = syncAssets env album lib out post st1 := by
  induction pre generalizing st with
  | nil =>
    have := congrArg Prod.fst h
    simp only [syncAssets] at this
    simp [this]
  | cons id rest ih =>
    show syncAssets env album lib out (id :: (rest ++ post)) st = _
    rw [syncAssets] at h ⊢
    split at h
    · exact absurd (congrArg Prod.snd h) (by simp)
    · exact ih _ h

theorem syncAlbums_append (env : Env) (lib out : String)
    (pre post : List AlbumMetadata) (st st1 : St)
    (h : syncAlbums env lib out pre st = (st1, none)) :
    syncAlbums env lib out (pre ++ post) st = syncAlbums env lib out post st1 := by
  induction pre generalizing st with
  | nil =>
    have := congrArg Prod.fst h
    simp only [syncAlbums] at this
    simp [this]
  | cons a rest ih =>
    show syncAlbums env lib out (a :: (rest ++ post)) st = _
    rw [syncAlbums] at h ⊢
    split at h
    · exact absurd (congrArg Prod.snd h) (by simp)
    · exact ih _ h

theorem split_at_index (ids : List Int) (k : Nat) (hk : k < ids.length) :
    ids = ids.take k ++ ids[k] :: ids.drop (k + 1) := by
  rw [← List.drop_eq_getElem_cons hk, List.take_append_drop]

/-- The loop stops at an asset that cannot be located. -/
theorem syncAssets_locate_failure (env : Env) (album : AlbumMetadata) (lib out : String)
    (id : Int) (rest : List Int) (st : St) (err : Error)
    (hloc : findAssetLocation env.db id = .error err) :
    syncAssets env album lib out (id :: rest) st = (⟨st.fs, st.log ++ [.locate id]⟩, some err) := by
  rw [syncAssets]
  have : syncAsset env album lib out id st = (⟨st.fs, st.log ++ [.locate id]⟩, some err) := by
    unfold syncAsset
    simp [St.emit, hloc]
  rw [this]

/-- The work on a new destination that fails at the open or in the converter: the empty
file made by `os.Create` stays. -/
theorem writeAsset_fails_after_create (env : Env) (lib d f outputPath : String) (st : St)
    (err : Error)
    (habsent : st.fs outputPath = none)
    (haccess : env.accessFault outputPath = none)
    (hcreate : env.createFault outputPath = none)
    (hfail : osOpen env (st.fs.set outputPath (.file [])) (inputPathOf env lib d f) = .error err
      ∨ ∃ inF, osOpen env (st.fs.set outputPath (.file [])) (inputPathOf env lib d f) = .ok inF
          ∧ isConverted f = true ∧ convertHEIC env inF = .error err) :
    ∃ log2, writeAsset env lib d f outputPath st
      = (⟨st.fs.set outputPath (.file []), st.log ++ log2⟩, some err) := by
  have hc : osCreate env st.fs outputPath = .ok (st.fs.set outputPath (.file [])) := by
    simp [osCreate, haccess, hcreate, habsent]
  unfold writeAsset
  simp only [St.emit, hc]
  rcases hfail with ho | ⟨inF, ho, hconv, hcv⟩
  · rw [ho]
    exact ⟨[.create outputPath, .open_ (inputPathOf env lib d f)], by simp⟩
  · rw [ho]
    simp only [hconv, if_true, hcv]
    exact ⟨[.create outputPath, .open_ (inputPathOf env lib d f),
      .convert (inputPathOf env lib d f)], by simp⟩

/-! ## Running an album twice -/

/-- C5: if a run of `syncAlbum` returns no error, then every asset of the album is found in
the store, and a second run from the state it left, with the same arguments, returns no
error, leaves the whole file system as it was, and does nothing but print its heading,
stat the album directory and, for each asset in turn, locate it, stat its destination
and skip it: no directory or file is created, nothing is opened, converted or written. -/
theorem syncAlbum_second_run_skips (env : Env) (album : AlbumMetadata) (lib out : String)
    (st st1 : St) (h : syncAlbum env album lib out st = (st1, none)) :
    (∀ id ∈ album.AssetIDs, ∃ d f, findAssetLocation env.db id = .ok (d, f))
      ∧ syncAlbum env album lib out st1 =
        (⟨st1.fs, st1.log ++ [.syncing album.Name album.AssetIDs.length,
            .stat (env.join [out, album.Name])]
          ++ album.AssetIDs.flatMap (skipLog env album out)⟩, none) := by
  unfold syncAlbum at h
  split at h
  · exact absurd (congrArg Prod.snd h) (by simp)
  · rename_i st0 hdir
    have hall := syncAssets_ok env album lib out _ st0 st1 h
    obtain ⟨m, hm⟩ := ensureDir_ok env album out st st0 hdir
    have hm1 : osStat env st1.fs (env.join [out, album.Name]) = .ok m := by
      obtain ⟨ha, hm⟩ := (osStat_ok_iff _ _ _ _).mp hm
      have := syncAssets_preserves env album lib out album.AssetIDs st0 _ m hm
      rw [h] at this
      exact (osStat_ok_iff _ _ _ _).mpr ⟨ha, this⟩
    refine ⟨fun id hid => ?_, ?_⟩
    · obtain ⟨d, f, hloc, _⟩ := hall id hid
      exact ⟨d, f, hloc⟩
    · unfold syncAlbum
      rw [ensureDir_exists env album out st1 m hm1]
      simp only
      have := syncAssets_skip_run env album lib out album.AssetIDs []
        ⟨st1.fs, st1.log ++ [.syncing album.Name album.AssetIDs.length,
          .stat (env.join [out, album.Name])]⟩ hall
      rw [List.append_nil] at this
      rw [this]
      simp [syncAssets]

/-- Witness of C5: a first sync of the album `Vacation` succeeds, and the second run only
skips. -/
theorem syncAlbum_second_run_skips_witness :
    (syncAlbum (plainEnv sampleDB) vacation "lib" "out" ⟨sampleFS, []⟩).2 = none
      ∧ syncAlbum (plainEnv sampleDB) vacation "lib" "out"
          (syncAlbum (plainEnv sampleDB) vacation "lib" "out" ⟨sampleFS, []⟩).1
        = (⟨(syncAlbum (plainEnv sampleDB) vacation "lib" "out" ⟨sampleFS, []⟩).1.fs,
            (syncAlbum (plainEnv sampleDB) vacation "lib" "out" ⟨sampleFS, []⟩).1.log
              ++ [.syncing vacation.Name vacation.AssetIDs.length,
                .stat ((plainEnv sampleDB).join ["out", vacation.Name])]
              ++ vacation.AssetIDs.flatMap (skipLog (plainEnv sampleDB) vacation "out")⟩, none) :=
  ⟨by decide,
    (syncAlbum_second_run_skips (plainEnv sampleDB) vacation "lib" "out" ⟨sampleFS, []⟩ _
      (pair_of_snd_none _ (by decide))).2⟩

/-! ## Stopping at the first error -/

/-- C6: if the album directory step and the first `k` assets of an album go through without
error and `findAssetLocation` fails for the asset at index `k`, then `syncAlbum` returns
exactly that error, in the state left by the first `k` assets with only the failed lookup
added to the log, so that nothing is located, opened, converted or written for a later
index; and whenever `sync` reaches this album, having synced the albums before it without
error, `sync` returns the same error in the same state, so that no later album is synced. -/
theorem sync_stops_at_locate_failure (env : Env) (lib out : String) (stA st0 st1 : St)
    (album : AlbumMetadata) (k : Nat) (hk : k < album.AssetIDs.length) (err : Error)
    (hdir : ensureDir env album out stA = (st0, none))
    (hpre : syncAssets env album lib out (album.AssetIDs.take k) st0 = (st1, none))
    (hloc : findAssetLocation env.db album.AssetIDs[k] = .error err) :
    syncAlbum env album lib out stA
        = (⟨st1.fs, st1.log ++ [.locate album.AssetIDs[k]]⟩, some err)
      ∧ ∀ (st : St) (entityValue : Int) (before after : List AlbumMetadata),
          findAlbumEntityValue env.db = (entityValue, none) →
          findAlbums env.db entityValue = .ok (before ++ album :: after) →
          syncAlbums env lib out before (st.emit (.foundEntity entityValue)) = (stA, none) →
          sync env lib out st
            = (⟨st1.fs, st1.log ++ [.locate album.AssetIDs[k]]⟩, some err) := by
  have hA : syncAlbum env album lib out stA
      = (⟨st1.fs, st1.log ++ [.locate album.AssetIDs[k]]⟩, some err) := by
    unfold syncAlbum
    rw [hdir]
    simp only
    have hsplit := congrArg (fun l => syncAssets env album lib out l st0)
      (split_at_index album.AssetIDs k hk)
    simp only at hsplit
    rw [hsplit, syncAssets_append env album lib out _ _ st0 st1 hpre]
    exact syncAssets_locate_failure env album lib out _ _ st1 err hloc
  refine ⟨hA, ?_⟩
  intro st entityValue before after hent halbums hbefore
  unfold sync
  rw [hent]
  simp only
  rw [halbums]
  simp only
  rw [syncAlbums_append env lib out before _ _ stA hbefore, syncAlbums, hA]

/-- Witness of C6: asset 3 of 5 has no row; the run ends with its lookup, assets 4 and 5
are never attempted, and the album `Later` is never synced. -/
theorem sync_stops_at_locate_failure_witness :
    findAlbums (plainEnv brokenDB).db 5 = .ok ([] ++ brokenAlbum :: [⟨6, "Later", [10]⟩])
      ∧ findAssetLocation (plainEnv brokenDB).db 99 = .error errNoRows
      ∧ (syncAlbum (plainEnv brokenDB) brokenAlbum "lib" "out" ⟨sampleFS, [.foundEntity 5]⟩).2
        = some errNoRows
      ∧ (sync (plainEnv brokenDB) "lib" "out" ⟨sampleFS, []⟩).2 = some errNoRows
      ∧ (sync (plainEnv brokenDB) "lib" "out" ⟨sampleFS, []⟩).1.log
        = (syncAssets (plainEnv brokenDB) brokenAlbum "lib" "out" [10, 11]
            (ensureDir (plainEnv brokenDB) brokenAlbum "out"
              ⟨sampleFS, [.foundEntity 5]⟩).1).1.log ++ [.locate 99] :=
  have h := sync_stops_at_locate_failure (plainEnv brokenDB) "lib" "out"
    ⟨sampleFS, [.foundEntity 5]⟩ _ _ brokenAlbum 2 (by decide) errNoRows
    (pair_of_snd_none _ (by decide)) (pair_of_snd_none _ (by decide)) (by decide)
  have h2 := h.2 ⟨sampleFS, []⟩ 5 [] [⟨6, "Later", [10]⟩] (by decide) (by decide) rfl
  ⟨by decide, by decide, congrArg Prod.snd h.1, congrArg Prod.snd h2,
    congrArg (fun r => r.1.log) h2⟩

/-! ## Existing destinations -/

/-- C8 (amended): when an asset is located and `os.Stat` reports what its destination path
already holds, the step for it returns no error, leaves the whole file system as it was
whatever the destination holds, and adds to the log only the lookup, the stat of the
destination and the skip line (the source is neither opened nor converted, nothing is
created or written); the loop goes on with the next asset; and at the end of the loop the
destination still holds what it held. -/
theorem syncAssets_existing_destination (env : Env) (album : AlbumMetadata) (lib out : String)
    (id : Int) (rest : List Int) (st : St) (d f : String) (n : Node)
    (hloc : findAssetLocation env.db id = .ok (d, f))
    (hstat : osStat env st.fs (outputPathOf env album out f) = .ok n) :
    syncAsset env album lib out id st
        = (⟨st.fs, st.log ++ [.locate id, .stat (outputPathOf env album out f), .skipping f]⟩, none)
      ∧ syncAssets env album lib out (id :: rest) st
        = syncAssets env album lib out rest
            ⟨st.fs, st.log ++ [.locate id, .stat (outputPathOf env album out f), .skipping f]⟩
      ∧ (syncAssets env album lib out (id :: rest) st).1.fs (outputPathOf env album out f)
        = some n := by
  have step := syncAsset_skip env album lib out id st d f n hloc hstat
  refine ⟨step, ?_, syncAssets_preserves _ _ _ _ _ _ _ _ ((osStat_ok_iff _ _ _ _).mp hstat).2⟩
  rw [syncAssets, step]

/-- Witness of C8 (amended): an older file at the destination of asset 11 keeps its bytes. -/
theorem syncAssets_existing_destination_witness :
    staleFS "out/Vacation/IMG_0002.png" = some (.file [0])
      ∧ osStat (plainEnv sampleDB) staleFS
          (outputPathOf (plainEnv sampleDB) staleAlbum "out" "IMG_0002.png") = .ok (.file [0])
      ∧ (syncAssets (plainEnv sampleDB) staleAlbum "lib" "out" (11 :: [10]) ⟨staleFS, []⟩).1.fs
          (outputPathOf (plainEnv sampleDB) staleAlbum "out" "IMG_0002.png") = some (.file [0]) :=
  ⟨by decide, by decide,
    (syncAssets_existing_destination (plainEnv sampleDB) staleAlbum "lib" "out" 11 [10]
      ⟨staleFS, []⟩ "B" "IMG_0002.png" (.file [0]) (by decide) (by decide)).2.2⟩

/-- C8 as stated fails: the destination of asset 11 holds a file, but its directory has lost
its search permission, so `os.Stat` returns an error and no file info; the asset is not
skipped: `os.Create` is called, fails, and `syncAlbum` returns its error instead of going on
to the next asset. -/
theorem syncAlbum_existing_destination_not_skipped :
    staleFS "out/Vacation/IMG_0002.png" = some (.file [0])
      ∧ findAssetLocation (lockedEnv sampleDB).db 11 = .ok ("B", "IMG_0002.png")
      ∧ outputPathOf (lockedEnv sampleDB) staleAlbum "out" "IMG_0002.png"
          = "out/Vacation/IMG_0002.png"
      ∧ osStat (lockedEnv sampleDB) staleFS "out/Vacation/IMG_0002.png" = .error errPermission
      ∧ (syncAlbum (lockedEnv sampleDB) staleAlbum "lib" "out" ⟨staleFS, []⟩).2
          = some errPermission
      ∧ (syncAlbum (lockedEnv sampleDB) staleAlbum "lib" "out" ⟨staleFS, []⟩).1.log
          = [.syncing "Vacation" 2, .stat "out/Vacation", .locate 11,
              .stat "out/Vacation/IMG_0002.png", .create "out/Vacation/IMG_0002.png"] := by
  decide

/-! ## Copy or convert -/

/-- C9 (the code at the failing input): the file name `scanheic` ends in `heic` but not in
`.heic`; it keeps its name, yet its bytes are passed through the converter and the
destination receives the converter's output, not the source bytes. -/
theorem syncAlbum_converts_without_renaming :
    dstFilename "scanheic" = "scanheic" ∧ isConverted "scanheic" = true
      ∧ (syncAlbum (plainEnv scanDB) scanAlbum "lib" "out" ⟨scanFS, []⟩).2 = none
      ∧ (syncAlbum (plainEnv scanDB) scanAlbum "lib" "out" ⟨scanFS, []⟩).1.fs "out/Scans/scanheic"
          = some (.file [255, 216, 255])
      ∧ scanFS "lib/originals/D/scanheic" = some (.file [7, 7])
      ∧ Event.convert "lib/originals/D/scanheic"
          ∈ (syncAlbum (plainEnv scanDB) scanAlbum "lib" "out" ⟨scanFS, []⟩).1.log := by
  decide

/-! ## What a failed asset leaves behind -/

/-- C10 (amended): if the album directory step and the first `k` assets go through without
error, the asset at index `k` is located, its destination path holds nothing, `os.Create`
succeeds there (the path can be reached and the call has no fault), and then the source cannot be opened or the converter fails, then
`syncAlbum` returns that error and leaves an EMPTY FILE at the destination path (nothing
removes what `os.Create` made); a later run of `syncAlbum` from that state skips the first
`k + 1` assets, the failed one among them, without opening, converting or writing
anything, and goes on with the assets after it. -/
theorem syncAlbum_failed_asset_is_skipped_later (env : Env) (album : AlbumMetadata)
    (lib out : String) (st st0 st1 : St) (k : Nat) (hk : k < album.AssetIDs.length)
    (d f : String) (err : Error)
    (hdir : ensureDir env album out st = (st0, none))
    (hpre : syncAssets env album lib out (album.AssetIDs.take k) st0 = (st1, none))
    (hloc : findAssetLocation env.db album.AssetIDs[k] = .ok (d, f))
    (habsent : st1.fs (outputPathOf env album out f) = none)
    (haccess : env.accessFault (outputPathOf env album out f) = none)
    (hcreate : env.createFault (outputPathOf env album out f) = none)
    (hfail :
      osOpen env (st1.fs.set (outputPathOf env album out f) (.file [])) (inputPathOf env lib d f)
          = .error err
      ∨ ∃ inF,
          osOpen env (st1.fs.set (outputPathOf env album out f) (.file []))
              (inputPathOf env lib d f) = .ok inF
            ∧ isConverted f = true ∧ convertHEIC env inF = .error err) :
    ∃ st2, syncAlbum env album lib out st = (st2, some err)
      ∧ st2.fs = st1.fs.set (outputPathOf env album out f) (.file [])
      ∧ syncAlbum env album lib out st2 =
          syncAssets env album lib out (album.AssetIDs.drop (k + 1))
            ⟨st2.fs, st2.log ++ [.syncing album.Name album.AssetIDs.length,
                .stat (env.join [out, album.Name])]
              ++ (album.AssetIDs.take (k + 1)).flatMap (skipLog env album out)⟩ := by
  obtain ⟨log2, hw⟩ := writeAsset_fails_after_create env lib d f (outputPathOf env album out f)
    ⟨st1.fs, st1.log ++ [.locate album.AssetIDs[k]] ++ [.stat (outputPathOf env album out f)]⟩
    err habsent haccess hcreate hfail
  have hstep : syncAsset env album lib out album.AssetIDs[k] st1
      = (⟨st1.fs.set (outputPathOf env album out f) (.file []),
          st1.log ++ [.locate album.AssetIDs[k]] ++ [.stat (outputPathOf env album out f)]
            ++ log2⟩, some err) := by
    unfold syncAsset
    simp only [St.emit, hloc, osStat, haccess, habsent]
    exact hw
  refine ⟨⟨st1.fs.set (outputPathOf env album out f) (.file []),
    st1.log ++ [.locate album.AssetIDs[k]] ++ [.stat (outputPathOf env album out f)] ++ log2⟩,
    ?_, rfl, ?_⟩
  · unfold syncAlbum
    rw [hdir]
    simp only
    have hsplit := congrArg (fun l => syncAssets env album lib out l st0)
      (split_at_index album.AssetIDs k hk)
    simp only at hsplit
    rw [hsplit, syncAssets_append env album lib out _ _ st0 st1 hpre, syncAssets, hstep]
  · obtain ⟨m, hm⟩ := ensureDir_ok env album out st st0 hdir
    have hm1 : osStat env st1.fs (env.join [out, album.Name]) = .ok m := by
      obtain ⟨ha, hm⟩ := (osStat_ok_iff _ _ _ _).mp hm
      have := syncAssets_preserves env album lib out (album.AssetIDs.take k) st0 _ m hm
      rw [hpre] at this
      exact (osStat_ok_iff _ _ _ _).mpr ⟨ha, this⟩
    obtain ⟨m2, hm2⟩ := osStat_set env st1.fs (outputPathOf env album out f) _ (.file []) m hm1
    have hall : ∀ id ∈ album.AssetIDs.take (k + 1),
        ∃ d f2, findAssetLocation env.db id = .ok (d, f2)
          ∧ ∃ m, osStat env (st1.fs.set (outputPathOf env album out f) (.file []))
              (outputPathOf env album out f2) = .ok m := by
      intro id hid
      rw [← List.take_concat_get _ _ hk, List.concat_eq_append, List.mem_append] at hid
      rcases hid with hid | hid
      · obtain ⟨d2, f2, hl2, m3, hm3⟩ := syncAssets_ok env album lib out _ st0 st1 hpre id hid
        exact ⟨d2, f2, hl2, osStat_set _ _ _ _ _ _ hm3⟩
      · have : id = album.AssetIDs[k] := by simpa using hid
        subst this
        exact ⟨d, f, hloc, _, (osStat_ok_iff _ _ _ _).mpr ⟨haccess, FS.set_same _ _ _⟩⟩
    unfold syncAlbum
    rw [ensureDir_exists env album out _ m2 hm2]
    simp only
    have hsplit := congrArg (fun l => syncAssets env album lib out l
      ⟨st1.fs.set (outputPathOf env album out f) (.file []),
        st1.log ++ [.locate album.AssetIDs[k]] ++ [.stat (outputPathOf env album out f)] ++ log2
          ++ [.syncing album.Name album.AssetIDs.length, .stat (env.join [out, album.Name])]⟩)
      (List.take_append_drop (k + 1) album.AssetIDs).symm
    simp only at hsplit
    rw [hsplit, syncAssets_skip_run env album lib out _ _ _ hall]

/-- Witness of C10 (amended): asset 12, second in its album, has no source file. -/
theorem syncAlbum_failed_asset_is_skipped_later_witness :
    findAssetLocation (plainEnv sampleDB).db 12 = .ok ("C", "IMG_0003.png")
      ∧ ∃ st2, syncAlbum (plainEnv sampleDB) missingAlbum "lib" "out" ⟨sampleFS, []⟩
          = (st2, some (.notExist "lib/originals/C/IMG_0003.png"))
        ∧ st2.fs (outputPathOf (plainEnv sampleDB) missingAlbum "out" "IMG_0003.png")
          = some (.file [])
        ∧ (syncAlbum (plainEnv sampleDB) missingAlbum "lib" "out" st2).2 = none :=
  match syncAlbum_failed_asset_is_skipped_later (plainEnv sampleDB) missingAlbum "lib" "out"
    ⟨sampleFS, []⟩ _ _ 1 (by decide) "C" "IMG_0003.png"
    (.notExist "lib/originals/C/IMG_0003.png")
    (pair_of_snd_none _ (by decide)) (pair_of_snd_none _ (by decide)) (by decide) (by decide)
    (by decide) (by decide) (Or.inl (by decide)) with
  | ⟨st2, h1, h2, h3⟩ =>
    ⟨by decide, st2, h1, by rw [h2]; exact FS.set_same _ _ _, by rw [h3]; rfl⟩

/-- C10 as stated fails: asset 12 has no source file and no file at its destination; the
run fails at the open, yet an empty file now exists at the destination, and the next run
skips the asset and returns no error. The same happens when the converter rejects the
image of asset 10. -/
theorem syncAlbum_failure_leaves_file :
    sampleFS "out/Vacation/IMG_0003.png" = none
      ∧ (syncAlbum (plainEnv sampleDB) missingAlbum "lib" "out" ⟨sampleFS, []⟩).2
          = some (.notExist "lib/originals/C/IMG_0003.png")
      ∧ (syncAlbum (plainEnv sampleDB) missingAlbum "lib" "out" ⟨sampleFS, []⟩).1.fs
          "out/Vacation/IMG_0003.png" = some (.file [])
      ∧ (syncAlbum (plainEnv sampleDB) missingAlbum "lib" "out"
          (syncAlbum (plainEnv sampleDB) missingAlbum "lib" "out" ⟨sampleFS, []⟩).1).2 = none
      ∧ Event.skipping "IMG_0003.png"
          ∈ (syncAlbum (plainEnv sampleDB) missingAlbum "lib" "out"
              ⟨(syncAlbum (plainEnv sampleDB) missingAlbum "lib" "out" ⟨sampleFS, []⟩).1.fs, []⟩).1.log
      ∧ sampleFS "out/Vacation/IMG_0001.jpeg" = none
      ∧ (syncAlbum (badCodecEnv sampleDB) vacation "lib" "out" ⟨sampleFS, []⟩).2
          = some (.msg "unsupported image format")
      ∧ (syncAlbum (badCodecEnv sampleDB) vacation "lib" "out" ⟨sampleFS, []⟩).1.fs
          "out/Vacation/IMG_0001.jpeg" = some (.file []) := by
  decide

end Alb
